import Mathlib

/-!
Verification of the yt-video-downloader-server backend against its
specification.  The definitions below are a shallow embedding of the two
Flask app variants `src/app.py` and `src/ts.py`: the URL identifier
extractor, the metadata normalizer behind `/video-info`, the download
orchestrator behind `/download`, the post-download file locator, and the
pure formatting helpers.  Python dictionaries whose keys may be absent are
modelled with `Option`; Python truthiness of a numeric field `x` is
modelled as `x.getD 0 ≠ 0`.
-/

namespace YtDl

/-- One entry of the external tool's `formats` list (a raw encoded
variant), restricted to the keys the two apps read.  An absent key is
`none`. -/
structure RawVariant where
  height : Option Nat
  fps : Option Nat
  vcodec : Option String
  acodec : Option String
  tbr : Option Nat
  abr : Option Nat
  filesize : Option Nat
  filesize_approx : Option Nat
deriving DecidableEq

/-- The part of the raw metadata response that the normalizer reads:
the variants list and the duration in seconds (absent ↦ `none`). -/
structure VideoInfo where
  formats : List RawVariant
  duration : Option Nat
deriving DecidableEq

/-- Python `a or b` for a possibly-absent numeric `a`: `a` when it is
truthy (present and nonzero), else `b`. -/
def pyOr (a : Option Nat) (b : Nat) : Nat :=
  match a with
  | some n => if n = 0 then b else n
  | none => b

/-- `f.get('tbr', 0)` -/
def tbrD (f : RawVariant) : Nat := f.tbr.getD 0

/-- `f.get('height')` read as a number (absent ↦ 0, which is falsy). -/
def heightD (f : RawVariant) : Nat := f.height.getD 0

/-- `f.get('vcodec') != 'none' and f.get('height')` -/
def isVideoFormat (f : RawVariant) : Bool :=
  decide (f.vcodec ≠ some "none") && decide (heightD f ≠ 0)

/-- The `video_formats` filter of `get_video_info`. -/
def video_formats (fs : List RawVariant) : List RawVariant :=
  fs.filter isVideoFormat

/-- `f.get('acodec') != 'none' and f.get('vcodec') == 'none'` -/
def isAudioOnly (f : RawVariant) : Bool :=
  decide (f.acodec ≠ some "none") && decide (f.vcodec = some "none")

/-- The `audio_formats` filter of `get_video_info`. -/
def audio_formats (fs : List RawVariant) : List RawVariant :=
  fs.filter isAudioOnly

/-- Write `quality_map[h] := f`. -/
def qmInsert (m : Nat → Option RawVariant) (h : Nat) (f : RawVariant) :
    Nat → Option RawVariant :=
  fun h' => if h' = h then some f else m h'

/-- One iteration of the `for f in video_formats` grouping loop: insert
when the height is new, else replace only on strictly higher bitrate. -/
def qmStep (m : Nat → Option RawVariant) (f : RawVariant) :
    Nat → Option RawVariant :=
  match m (heightD f) with
  | none => qmInsert m (heightD f) f
  | some cur => if tbrD f > tbrD cur then qmInsert m (heightD f) f else m

/-- The `quality_map` dictionary built by `get_video_info`, as a lookup
function from height to the held variant. -/
def quality_map (fs : List RawVariant) : Nat → Option RawVariant :=
  (video_formats fs).foldl qmStep (fun _ => none)

def common_resolutions : List Nat := [2160, 1440, 1080, 720, 480, 360, 240, 144]

/-- Left-pad a digit string with zeros to width `d`. -/
def padZeros (d : Nat) (s : String) : String :=
  if s.length < d then String.mk (List.replicate (d - s.length) '0') ++ s else s

/-- Python `f"{x:.df}"` for the nonnegative value `num / 2 ^ shift`.
The running value inside `format_bytes` is always the integer input
divided by a power of 1024, which float division computes exactly, so it
is represented here as an exact dyadic pair; rendering rounds half to
even, as float formatting does on the exact value. -/
def renderFixed (d num shift : Nat) : String :=
  let k := num * 10 ^ d
  let f := k / 2 ^ shift
  let r := k % 2 ^ shift
  let v := if 2 * r < 2 ^ shift then f
           else if 2 ^ shift < 2 * r then f + 1
           else if f % 2 = 0 then f else f + 1
  toString (v / 10 ^ d) ++ "." ++ padZeros d (toString (v % 10 ^ d))

/-- The unit loop of `app.py`'s `format_bytes` (two decimals); `size /=
1024` adds 10 to the binary shift. -/
def appFbGo : Nat → Nat → List String → String
  | num, shift, [] => renderFixed 2 num shift ++ " TB"
  | num, shift, u :: us =>
    if num < 1024 * 2 ^ shift then renderFixed 2 num shift ++ " " ++ u
    else appFbGo num (shift + 10) us

/-- `format_bytes` of `app.py`. -/
def format_bytes (size : Nat) : String :=
  if size = 0 then "Unknown" else appFbGo size 0 ["B", "KB", "MB", "GB"]

/-- The unit loop of `ts.py`'s `format_bytes` (one decimal). -/
def tsFbGo : Nat → Nat → List String → String
  | num, shift, [] => renderFixed 1 num shift ++ " TB"
  | num, shift, u :: us =>
    if num < 1024 * 2 ^ shift then renderFixed 1 num shift ++ " " ++ u
    else tsFbGo num (shift + 10) us

/-- `format_bytes` of `ts.py`. -/
def ts_format_bytes (bytes_size : Nat) : String :=
  if bytes_size = 0 then "Unknown" else tsFbGo bytes_size 0 ["B", "KB", "MB", "GB"]

/-- The common division-by-1024 loop both variants instantiate, with the
decimal count as a parameter. -/
def fbGo (d : Nat) : Nat → Nat → List String → String
  | num, shift, [] => renderFixed d num shift ++ " TB"
  | num, shift, u :: us =>
    if num < 1024 * 2 ^ shift then renderFixed d num shift ++ " " ++ u
    else fbGo d num (shift + 10) us

/-- Python `f"{n:02d}"`. -/
def pad2 (n : Nat) : String :=
  if n < 10 then "0" ++ toString n else toString n

/-- `format_duration` of `app.py`. -/
def format_duration (seconds : Nat) : String :=
  if seconds = 0 then "0:00"
  else
    let hours := seconds / 3600
    let minutes := (seconds % 3600) / 60
    let secs := seconds % 60
    if hours > 0 then toString hours ++ ":" ++ pad2 minutes ++ ":" ++ pad2 secs
    else toString minutes ++ ":" ++ pad2 secs

/-- `format_duration` of `ts.py` (textually identical to `app.py`'s). -/
def ts_format_duration (seconds : Nat) : String :=
  if seconds = 0 then "0:00"
  else
    let hours := seconds / 3600
    let minutes := (seconds % 3600) / 60
    let secs := seconds % 60
    if hours > 0 then toString hours ++ ":" ++ pad2 minutes ++ ":" ++ pad2 secs
    else toString minutes ++ ":" ++ pad2 secs

/-- A video quality tier of the `/video-info` response. -/
structure VideoTier where
  format_id : String
  quality : String
  ext : String
  filesize : Nat
  filesize_str : String
  fps : Nat
  vcodec : String
  acodec : String
deriving DecidableEq

/-- The audio-only tier of the `/video-info` response. -/
structure AudioTier where
  format_id : String
  quality : String
  ext : String
  filesize : Nat
  filesize_str : String
  abr : Option Nat
  acodec : Option String
deriving DecidableEq

/-- One element of the response's `formats` list. -/
inductive Tier
  | video (t : VideoTier)
  | audio (t : AudioTier)
deriving DecidableEq

def tierQuality : Tier → String
  | .video t => t.quality
  | .audio t => t.quality

def tierFormatId : Tier → String
  | .video t => t.format_id
  | .audio t => t.format_id

def isAudioTier : Tier → Bool
  | .video _ => false
  | .audio _ => true

def heightLabel (h : Nat) : String := toString h ++ "p"

/-- The three-way fallback selection expression built for height `h`. -/
def formatString (h : Nat) : String :=
  "bestvideo[height=" ++ toString h ++ "]+bestaudio/bestvideo[height<="
    ++ toString h ++ "]+bestaudio/best[height<=" ++ toString h ++ "]"

/-- The byte-size resolution for a video tier: reported filesize, else
approximate, else the bitrate·duration estimate when both are truthy. -/
def estFilesize (info : VideoInfo) (f : RawVariant) : Nat :=
  let fs0 := pyOr f.filesize (f.filesize_approx.getD 0)
  if fs0 = 0 ∧ tbrD f ≠ 0 ∧ info.duration.getD 0 ≠ 0
  then tbrD f * info.duration.getD 0 * 1024 / 8
  else fs0

/-- The video tier dictionary appended for height `h` and chosen raw
variant `f`. -/
def mkVideoTier (info : VideoInfo) (h : Nat) (f : RawVariant) : VideoTier :=
  let fs := estFilesize info f
  { format_id := formatString h
    quality := heightLabel h
    ext := "mp4"
    filesize := fs
    filesize_str := if fs ≠ 0 then format_bytes fs else "Estimated"
    fps := f.fps.getD 30
    vcodec := f.vcodec.getD "h264"
    acodec := "aac" }

/-- The audio tier dictionary built from the best audio-only variant. -/
def mkAudioTier (f : RawVariant) : AudioTier :=
  let fs := pyOr f.filesize (f.filesize_approx.getD 0)
  { format_id := "bestaudio"
    quality := "Audio Only"
    ext := "mp3"
    filesize := fs
    filesize_str := if fs ≠ 0 then format_bytes fs else "Unknown"
    abr := f.abr
    acodec := f.acodec }

/-- The `for height in common_resolutions` loop: one video tier per
canonical height present in `quality_map`. -/
def videoTiers (info : VideoInfo) : List Tier :=
  common_resolutions.filterMap
    (fun h => (quality_map info.formats h).map (fun f => Tier.video (mkVideoTier info h f)))

/-- Python `max(l, key=key)` starting from accumulator `a`: later
elements replace the held one only on a strictly greater key, so ties
keep the first encountered. -/
def pyMaxBy {α : Type} (key : α → Nat) : α → List α → α
  | a, [] => a
  | a, b :: bs => pyMaxBy key (if key b > key a then b else a) bs

/-- `max(audio_formats, key=lambda x: x.get('abr', 0))` when the audio
list is non-empty. -/
def bestAudio (fs : List RawVariant) : Option RawVariant :=
  match audio_formats fs with
  | [] => none
  | a :: as => some (pyMaxBy (fun f => f.abr.getD 0) a as)

/-- The `formats` list of the `/video-info` response. -/
def get_video_info_formats (info : VideoInfo) : List Tier :=
  videoTiers info
    ++ (match bestAudio info.formats with
        | some b => [Tier.audio (mkAudioTier b)]
        | none => [])

/-- The canonical heights present in the grouped map, in canonical
order. -/
def presentHeights (info : VideoInfo) : List Nat :=
  common_resolutions.filter (fun h => (quality_map info.formats h).isSome)

/-! ## Download orchestrator (`download_video`) -/

/-- A yt-dlp post-processing step, as configured by `download_video`. -/
inductive PostProcessor
  | extractAudio (preferredcodec preferredquality : String)
  | videoConvertor (preferedformat : String)
deriving DecidableEq

/-- The yt-dlp options `download_video` sets that depend on the request
(the `format` selection expression, the container merge, and the
post-processing chain).  `format := none` models passing Python `None`
through to the tool. -/
structure YdlOpts where
  format : Option String
  merge_output_format : Option String
  postprocessors : List PostProcessor
deriving DecidableEq

/-- Python's substring test `needle in hay` on character lists. -/
def containsSub (needle : List Char) : List Char → Bool
  | [] => needle.isEmpty
  | c :: t => needle.isPrefixOf (c :: t) || containsSub needle t

/-- `quality.lower()` (ASCII case folding, as in the quality strings the
apps exchange). -/
def lowerStr (s : String) : List Char := s.toList.map Char.toLower

/-- `'audio' in quality.lower() or format_id == 'bestaudio'` -/
def wantsAudio (format_id : Option String) (quality : String) : Bool :=
  containsSub "audio".toList (lowerStr quality) || format_id == some "bestaudio"

/-- The audio-only pipeline configured by `download_video`. -/
def audioOpts : YdlOpts :=
  { format := some "bestaudio/best"
    merge_output_format := none
    postprocessors := [.extractAudio "mp3" "192"] }

/-- The request-dependent options of `download_video`. -/
def downloadOpts (format_id : Option String) (quality : String) : YdlOpts :=
  if wantsAudio format_id quality then audioOpts
  else
    { format := format_id
      merge_output_format := some "mp4"
      postprocessors := [.videoConvertor "mp4"] }

/-- Modelled from the spec: the external download tool is consumed as a
black box (its code is not in this repository); per the spec it falls
back to a generic "best video+audio" selection expression when the app
passes no expression of its own. -/
def delegateDefaultFormat : String := "bestvideo+bestaudio/best"

/-- The selection expression the delegate effectively uses. -/
def effectiveFormat (o : YdlOpts) : String := o.format.getD delegateDefaultFormat

/-! ## File locator -/

/-- A file in the download directory: its path string (as the app
manipulates it, e.g. `downloads/abc_title.mp4`) and its creation time. -/
structure DiskFile where
  path : String
  ctime : Nat
deriving DecidableEq

/-- The observable state of the download directory. -/
def Disk : Type := List DiskFile

/-- `os.path.exists` restricted to the files the locator can see. -/
def fileOnDisk (d : Disk) (p : String) : Bool :=
  (d : List DiskFile).any (fun x => x.path == p)

/-- Python `s.rsplit('.', 1)[0]`: everything before the last dot, or the
whole string when it has no dot. -/
def stemOf (s : String) : String :=
  match s.toList.reverse.dropWhile (fun c => c ≠ '.') with
  | [] => s
  | _ :: rest => String.mk rest.reverse

/-- The `possible_files` candidate list: the tool-prepared base filename
and its four extension siblings, in source order. -/
def candidateFiles (base : String) : List String :=
  [base, stemOf base ++ ".mp4", stemOf base ++ ".mp3",
   stemOf base ++ ".m4a", stemOf base ++ ".webm"]

/-- `DOWNLOAD_DIR.glob(f'{video_id}_*')`: the files of the download
directory whose name starts with the video id and an underscore. -/
def globById (d : Disk) (videoId : String) : List DiskFile :=
  (d : List DiskFile).filter
    (fun x => ("downloads/" ++ videoId ++ "_").toList.isPrefixOf x.path.toList)

/-- The file-resolution policy run after a successful delegated
download: first existing candidate, else the newest id-prefixed file. -/
def locateDownload (d : Disk) (base videoId : String) : Option String :=
  match (candidateFiles base).find? (fun c => fileOnDisk d c) with
  | some c => some c
  | none =>
    match globById d videoId with
    | [] => none
    | a :: as => some (pyMaxBy (fun x => x.ctime) a as).path

/-- `os.path.basename`. -/
def basenameOf (s : String) : String :=
  String.mk (s.toList.reverse.takeWhile (fun c => c ≠ '/')).reverse

/-- The HTTP status and payload `download_video` produces from the
locator's answer: success with the resolved filename, or the distinct
file-missing error with status 500. -/
def downloadLocateResponse (d : Disk) (base videoId : String) : Nat × String :=
  match locateDownload d base videoId with
  | some p => (200, basenameOf p)
  | none => (500, "Download completed but file not found")

/-! ## URL identifier extractor (`extract_video_id`) -/

/-- The character class `[^&\n?#]` excluded from a captured id. -/
def badChar (c : Char) : Bool :=
  c == '&' || c == '\n' || c == '?' || c == '#'

/-- The greedy `[^&\n?#]+` capturing group: the maximal good-character
run, failing when it is empty. -/
def captureRun (cs : List Char) : Option (List Char) :=
  let g := cs.takeWhile (fun c => !badChar c)
  if g.isEmpty then none else some g

/-- Try the literal alternatives of one pattern at the current position,
in order; an alternative matches when it is a prefix of the text and a
non-empty capture follows it. -/
def tryAlts (ps : List (List Char)) (cs : List Char) : Option (List Char)
  :=
  match ps with
  | [] => none
  | p :: rest =>
    match (if p.isPrefixOf cs then captureRun (cs.drop p.length) else none) with
    | some g => some g
    | none => tryAlts rest cs

/-- `re.search`: scan positions left to right and return the first
capture. -/
def searchAlts (ps : List (List Char)) : List Char → Option (List Char)
  | [] => none
  | c :: rest =>
    match tryAlts ps (c :: rest) with
    | some g => some g
    | none => searchAlts ps rest

/-- `(?:youtube\.com\/watch\?v=|youtu\.be\/)([^&\n?#]+)` -/
def pat1 : List (List Char) := ["youtube.com/watch?v=".toList, "youtu.be/".toList]

/-- `youtube\.com\/embed\/([^&\n?#]+)` -/
def pat2 : List (List Char) := ["youtube.com/embed/".toList]

/-- `youtube\.com\/v\/([^&\n?#]+)` -/
def pat3 : List (List Char) := ["youtube.com/v/".toList]

/-- `extract_video_id` of `app.py`: first capturing-group match of the
ordered pattern list, or `none`. -/
def extract_video_id (url : String) : Option String :=
  match searchAlts pat1 url.toList with
  | some g => some (String.mk g)
  | none =>
    match searchAlts pat2 url.toList with
    | some g => some (String.mk g)
    | none =>
      match searchAlts pat3 url.toList with
      | some g => some (String.mk g)
      | none => none

/-- `extract_video_id` of `ts.py` (textually identical to `app.py`'s). -/
def ts_extract_video_id (url : String) : Option String :=
  match searchAlts pat1 url.toList with
  | some g => some (String.mk g)
  | none =>
    match searchAlts pat2 url.toList with
    | some g => some (String.mk g)
    | none =>
      match searchAlts pat3 url.toList with
      | some g => some (String.mk g)
      | none => none

/-! ## Auxiliary definitions used by the statements -/

/-- One pass of the per-bucket selection: keep the held variant unless
the new one has a strictly higher bitrate. -/
def selStep (o : Option RawVariant) (f : RawVariant) : Option RawVariant :=
  match o with
  | none => some f
  | some cur => if tbrD f > tbrD cur then some f else some cur

/-- The raw variants competing for the height-`h` bucket, in encounter
order. -/
def bucketAt (fs : List RawVariant) (h : Nat) : List RawVariant :=
  (video_formats fs).filter (fun f => heightD f == h)

/-! ## Concrete example data -/

def exV1080lo : RawVariant :=
  ⟨some 1080, some 30, some "vp09", some "none", some 4000, none, some 1000, none⟩

def exV1080hi : RawVariant :=
  ⟨some 1080, some 60, some "avc1", some "none", some 6000, none, some 2000, none⟩

def exV720 : RawVariant :=
  ⟨some 720, none, some "avc1", some "none", some 3000, none, some 800, none⟩

def exV480 : RawVariant :=
  ⟨some 480, some 30, some "avc1", some "none", some 1500, none, none, some 500⟩

def exAudio : RawVariant :=
  ⟨none, none, some "none", some "opus", none, some 160, some 300, none⟩

/-- A raw metadata result with video variants at heights 1080 (twice),
720 and 480, one audio-only variant, and a 120 s duration. -/
def exInfo : VideoInfo :=
  ⟨[exV1080lo, exV720, exAudio, exV480, exV1080hi], some 120⟩

/-- A selected variant reporting bitrate 5000 kbps and no filesize. -/
def fC6 : RawVariant :=
  ⟨some 1080, none, some "avc1", some "none", some 5000, none, none, none⟩

/-- A metadata result of duration 120 s around `fC6`. -/
def infoC6 : VideoInfo := ⟨[fC6], some 120⟩

/-- A download directory holding only the post-processed `.mp4`. -/
def exDisk : Disk := [⟨"downloads/abc_title.mp4", 5⟩]

/-- A download directory where no candidate filename exists but two
id-prefixed files do. -/
def exDisk2 : Disk :=
  [⟨"downloads/abc_one.part", 3⟩, ⟨"downloads/abc_two.part", 7⟩]

/-! ## Theorems -/

/-- Pointwise effect of one grouping iteration: only the bucket of the
variant's own height changes, and it changes by `selStep`. -/
lemma qmStep_apply (m : Nat → Option RawVariant) (f : RawVariant) (h : Nat) :
    qmStep m f h = if h = heightD f then selStep (m (heightD f)) f else m h := by
  cases hm : m (heightD f) with
  | none =>
    by_cases hh : h = heightD f <;>
      simp [qmStep, selStep, qmInsert, hm, hh]
  | some cur =>
    by_cases ht : tbrD f > tbrD cur <;>
      by_cases hh : h = heightD f <;>
        simp [qmStep, selStep, qmInsert, hm, hh, ht]

/-- The grouping fold, observed at one height, is the `selStep` fold
over that height's bucket. -/
lemma foldl_qmStep_apply (l : List RawVariant) (m : Nat → Option RawVariant) (h : Nat) :
    (l.foldl qmStep m) h
      = (l.filter (fun f => heightD f == h)).foldl selStep (m h) := by
  induction l generalizing m with
  | nil => rfl
  | cons f t ih =>
    rw [List.foldl_cons, ih, List.filter_cons]
    by_cases hh : heightD f = h
    · rw [if_pos (by simp [hh]), List.foldl_cons, qmStep_apply, if_pos hh.symm, hh]
    · rw [if_neg (by simp [hh]), qmStep_apply, if_neg (fun hc => hh hc.symm)]

/-- `quality_map` at height `h` is the selection fold over the bucket. -/
lemma quality_map_eq_selFold (fs : List RawVariant) (h : Nat) :
    quality_map fs h = (bucketAt fs h).foldl selStep none := by
  rw [quality_map, bucketAt, foldl_qmStep_apply]

/-- The selection fold started from a held variant `a` yields a variant
that dominates `a` and every list element, and that strictly beat every
element encountered before it. -/
lemma selFold_some (l : List RawVariant) (a : RawVariant) :
    ∃ f, l.foldl selStep (some a) = some f ∧ tbrD a ≤ tbrD f ∧
      (∀ g ∈ l, tbrD g ≤ tbrD f) ∧
      (f = a ∨ ∃ pre post, l = pre ++ f :: post ∧ tbrD a < tbrD f ∧
        ∀ g ∈ pre, tbrD g < tbrD f) := by
  induction l generalizing a with
  | nil => exact ⟨a, rfl, le_refl _, by simp, Or.inl rfl⟩
  | cons b t ih =>
    rw [List.foldl_cons]
    by_cases hb : tbrD b > tbrD a
    · have hsel : selStep (some a) b = some b := by simp [selStep, hb]
      rw [hsel]
      obtain ⟨f, hf, hbf, hall, hdec⟩ := ih b
      refine ⟨f, hf, le_of_lt (lt_of_lt_of_le hb hbf), ?_, ?_⟩
      · intro g hg
        rcases List.mem_cons.mp hg with rfl | hg
        · exact hbf
        · exact hall g hg
      · rcases hdec with rfl | ⟨pre, post, rfl, hblt, hpre⟩
        · exact Or.inr ⟨[], t, rfl, hb, by simp⟩
        · refine Or.inr ⟨b :: pre, post, rfl, lt_trans hb hblt, ?_⟩
          intro g hg
          rcases List.mem_cons.mp hg with rfl | hg
          · exact hblt
          · exact hpre g hg
    · have hble : tbrD b ≤ tbrD a := le_of_not_lt hb
      have hsel : selStep (some a) b = some a := by simp [selStep, hb]
      rw [hsel]
      obtain ⟨f, hf, haf, hall, hdec⟩ := ih a
      refine ⟨f, hf, haf, ?_, ?_⟩
      · intro g hg
        rcases List.mem_cons.mp hg with rfl | hg
        · exact le_trans hble haf
        · exact hall g hg
      · rcases hdec with rfl | ⟨pre, post, rfl, halt, hpre⟩
        · exact Or.inl rfl
        · refine Or.inr ⟨b :: pre, post, rfl, halt, ?_⟩
          intro g hg
          rcases List.mem_cons.mp hg with rfl | hg
          · exact lt_of_le_of_lt hble halt
          · exact hpre g hg

/-- C2: the per-height grouping keeps a variant of maximal bitrate in
its bucket, and the kept variant strictly beat every variant of the
bucket encountered before it, so bitrate ties keep the first
encountered; concretely, 1080p variants with bitrates 4000 and 6000
resolve to the 6000 one. -/
theorem C2_bucket_best_bitrate :
    (∀ (fs : List RawVariant) (h : Nat) (f : RawVariant),
      quality_map fs h = some f →
        f ∈ bucketAt fs h ∧
        (∀ g ∈ bucketAt fs h, tbrD g ≤ tbrD f) ∧
        ∃ pre post, bucketAt fs h = pre ++ f :: post ∧
          ∀ g ∈ pre, tbrD g < tbrD f) ∧
    quality_map exInfo.formats 1080 = some exV1080hi := by
  refine ⟨?_, by decide⟩
  intro fs h f hq
  rw [quality_map_eq_selFold] at hq
  cases hb : bucketAt fs h with
  | nil =>
    rw [hb] at hq
    exact absurd hq (by simp)
  | cons a t =>
    rw [hb, List.foldl_cons] at hq
    have hsel : selStep none a = some a := rfl
    rw [hsel] at hq
    obtain ⟨f', hf', haf', hall, hdec⟩ := selFold_some t a
    rw [hf'] at hq
    have heq : f' = f := Option.some.inj hq
    subst heq
    refine ⟨?_, ?_, ?_⟩
    · rcases hdec with rfl | ⟨pre, post, rfl, _, _⟩
      · exact List.mem_cons_self _ _
      · simp
    · intro g hg
      rcases List.mem_cons.mp hg with rfl | hg
      · exact haf'
      · exact hall g hg
    · rcases hdec with rfl | ⟨pre, post, heq, halt, hpre⟩
      · exact ⟨[], t, rfl, by simp⟩
      · refine ⟨a :: pre, post, by rw [heq]; rfl, ?_⟩
        intro g hg
        rcases List.mem_cons.mp hg with rfl | hg
        · exact halt
        · exact hpre g hg

/-- Witness for C2: in the example metadata the 1080 bucket holds both
1080p variants and resolves to the higher-bitrate one. -/
theorem C2_bucket_best_bitrate_witness :
    exV1080hi ∈ bucketAt exInfo.formats 1080 ∧
      ∀ g ∈ bucketAt exInfo.formats 1080, tbrD g ≤ tbrD exV1080hi :=
  ⟨(C2_bucket_best_bitrate.1 exInfo.formats 1080 exV1080hi (by decide)).1,
   (C2_bucket_best_bitrate.1 exInfo.formats 1080 exV1080hi (by decide)).2.1⟩

/-- Python `max` keeps an element of the scanned collection whose key no
element exceeds. -/
lemma pyMaxBy_spec {α : Type} (key : α → Nat) (a : α) (l : List α) :
    pyMaxBy key a l ∈ a :: l ∧ ∀ g ∈ a :: l, key g ≤ key (pyMaxBy key a l) := by
  induction l generalizing a with
  | nil => simp [pyMaxBy]
  | cons b t ih =>
    rw [pyMaxBy]
    by_cases hb : key b > key a
    · rw [if_pos hb]
      obtain ⟨hmem, hle⟩ := ih b
      refine ⟨List.mem_cons_of_mem a hmem, ?_⟩
      intro g hg
      rcases List.mem_cons.mp hg with rfl | hg
      · exact le_trans (le_of_lt hb) (hle b (List.mem_cons_self _ _))
      · exact hle g hg
    · rw [if_neg hb]
      obtain ⟨hmem, hle⟩ := ih a
      constructor
      · rcases List.mem_cons.mp hmem with h | h
        · rw [h]
          exact List.mem_cons_self _ _
        · exact List.mem_cons_of_mem a (List.mem_cons_of_mem b h)
      · intro g hg
        rcases List.mem_cons.mp hg with rfl | hg
        · exact hle g (List.mem_cons_self _ _)
        · rcases List.mem_cons.mp hg with rfl | hg2
          · exact le_trans (le_of_not_lt hb) (hle a (List.mem_cons_self _ _))
          · exact hle g (List.mem_cons_of_mem a hg2)

/-- Every tier emitted by the resolution loop is a video tier. -/
lemma videoTiers_video (info : VideoInfo) :
    ∀ t ∈ videoTiers info, isAudioTier t = false := by
  intro t ht
  obtain ⟨h, _, hf⟩ := List.mem_filterMap.mp ht
  obtain ⟨f, _, rfl⟩ := Option.map_eq_some'.mp hf
  rfl

/-- C7: with at least one audio-only variant present, exactly one audio
tier is emitted, built from the audio-only variant of maximal average
bitrate; its byte size is only the reported/approximate filesize and is
rendered `Unknown` when that is absent — the bitrate·duration estimate
is never applied to it. -/
theorem C7_audio_tier :
    ∀ info : VideoInfo,
      audio_formats info.formats ≠ [] →
      ∃ b : RawVariant,
        bestAudio info.formats = some b ∧
        b ∈ audio_formats info.formats ∧
        (∀ g ∈ audio_formats info.formats, g.abr.getD 0 ≤ b.abr.getD 0) ∧
        get_video_info_formats info = videoTiers info ++ [Tier.audio (mkAudioTier b)] ∧
        (get_video_info_formats info).filter isAudioTier = [Tier.audio (mkAudioTier b)] ∧
        (mkAudioTier b).filesize = pyOr b.filesize (b.filesize_approx.getD 0) ∧
        (pyOr b.filesize (b.filesize_approx.getD 0) = 0 →
          (mkAudioTier b).filesize_str = "Unknown") := by
  intro info hne
  cases ha : audio_formats info.formats with
  | nil => exact absurd ha hne
  | cons a t =>
    have hbest : bestAudio info.formats = some (pyMaxBy (fun f => f.abr.getD 0) a t) := by
      rw [bestAudio, ha]
    obtain ⟨hmem, hle⟩ := pyMaxBy_spec (fun f => f.abr.getD 0) a t
    refine ⟨pyMaxBy (fun f => f.abr.getD 0) a t, hbest, hmem, hle, ?_, ?_, rfl, ?_⟩
    · rw [get_video_info_formats, hbest]
    · rw [get_video_info_formats, hbest, List.filter_append,
        List.filter_eq_nil_iff.mpr (by simpa using videoTiers_video info)]
      rfl
    · intro h0
      show (if pyOr _ (_) ≠ 0 then _ else "Unknown") = "Unknown"
      rw [if_neg (by simp [h0])]

/-- Witness for C7: the example metadata has an audio-only variant, so
an audio tier is emitted from a maximal-bitrate audio variant. -/
theorem C7_audio_tier_witness :
    ∃ b : RawVariant, bestAudio exInfo.formats = some b ∧
      b ∈ audio_formats exInfo.formats := by
  obtain ⟨b, h1, h2, _⟩ := C7_audio_tier exInfo (by decide)
  exact ⟨b, h1, h2⟩

/-- C5: after a reported success the locator returns the first of the
five filename candidates that exists on disk (so a `.webm` base whose
post-processed output is `.mp4` resolves to the `.mp4` sibling); when
none exists it returns the most-recently-created id-prefixed file; when
that list is empty too, the endpoint answers 500 with the distinct
`Download completed but file not found` error. -/
theorem C5_file_locator :
    (∀ (d : Disk) (base videoId c : String),
      (candidateFiles base).find? (fun p => fileOnDisk d p) = some c →
        locateDownload d base videoId = some c) ∧
    (∀ (d : Disk) (base videoId : String),
      (candidateFiles base).find? (fun p => fileOnDisk d p) = none →
        (∀ (a : DiskFile) (as : List DiskFile), globById d videoId = a :: as →
          locateDownload d base videoId
              = some (pyMaxBy (fun x => x.ctime) a as).path ∧
            pyMaxBy (fun x => x.ctime) a as ∈ globById d videoId ∧
            ∀ g ∈ globById d videoId,
              g.ctime ≤ (pyMaxBy (fun x => x.ctime) a as).ctime) ∧
        (globById d videoId = [] →
          downloadLocateResponse d base videoId
            = (500, "Download completed but file not found"))) ∧
    locateDownload exDisk "downloads/abc_title.webm" "abc"
        = some "downloads/abc_title.mp4" ∧
    downloadLocateResponse exDisk2 "downloads/abc_title.webm" "abc"
        = (200, "abc_two.part") := by
  refine ⟨?_, ?_, by decide, by decide⟩
  · intro d base videoId c h
    rw [locateDownload, h]
  · intro d base videoId hn
    constructor
    · intro a as hg
      obtain ⟨hmem, hle⟩ := pyMaxBy_spec (fun x => x.ctime) a as
      rw [hg]
      exact ⟨by rw [locateDownload, hn, hg], hmem, hle⟩
    · intro hg
      rw [downloadLocateResponse, locateDownload, hn, hg]

/-- Witness for C5: the example `.webm` base resolves to the `.mp4`
sibling through the candidate scan. -/
theorem C5_file_locator_witness :
    locateDownload exDisk "downloads/abc_title.webm" "abc"
      = some "downloads/abc_title.mp4" :=
  C5_file_locator.1 exDisk "downloads/abc_title.webm" "abc"
    "downloads/abc_title.mp4" (by decide)

/-- The qualities of the emitted video tiers are the labels of the
canonical heights present in the grouped map, in canonical order. -/
lemma videoTiers_map_quality (info : VideoInfo) (l : List Nat) :
    (l.filterMap (fun h => (quality_map info.formats h).map
        (fun f => Tier.video (mkVideoTier info h f)))).map tierQuality
      = (l.filter (fun h => (quality_map info.formats h).isSome)).map heightLabel := by
  induction l with
  | nil => rfl
  | cons h t ih =>
    rw [List.filterMap_cons, List.filter_cons]
    cases hq : quality_map info.formats h with
    | none => simpa [hq] using ih
    | some f =>
      simp only [hq, Option.map_some', Option.isSome_some, if_pos, List.map_cons, ih]
      rfl

/-- The selection expression of a video tier is never empty. -/
lemma formatString_ne_empty (h : Nat) : formatString h ≠ "" := by
  intro hc
  have hb : ('b' : Char) ∈ (formatString h).data := by
    rw [formatString]
    simp [String.data_append]
  rw [hc] at hb
  simp at hb

/-- C1: the `/video-info` formats list is the video tiers of the
canonical heights present in the grouped map, in strictly descending
canonical order, followed by at most one audio tier; every tier carries
a non-empty selection expression, and the 1080/720/480-plus-audio
example yields exactly the four tiers in order. -/
theorem C1_tier_ordering :
    (∀ info : VideoInfo,
      (get_video_info_formats info).map tierQuality
          = (presentHeights info).map heightLabel
            ++ (match bestAudio info.formats with
                | some _ => ["Audio Only"]
                | none => []) ∧
      (presentHeights info).Pairwise (· > ·) ∧
      ((get_video_info_formats info).filter isAudioTier).length ≤ 1 ∧
      ∀ t ∈ get_video_info_formats info, tierFormatId t ≠ "") ∧
    (get_video_info_formats exInfo).map tierQuality
        = ["1080p", "720p", "480p", "Audio Only"] ∧
    (get_video_info_formats exInfo).all (fun t => tierFormatId t != "") = true := by
  refine ⟨?_, by decide, by decide⟩
  intro info
  refine ⟨?_, ?_, ?_, ?_⟩
  · rw [get_video_info_formats, List.map_append, videoTiers, presentHeights,
      videoTiers_map_quality]
    cases hb : bestAudio info.formats <;> rfl
  · exact (show common_resolutions.Pairwise (· > ·) by decide).filter _
  · rw [get_video_info_formats, List.filter_append,
      List.filter_eq_nil_iff.mpr (by simpa using videoTiers_video info)]
    cases hb : bestAudio info.formats <;> simp [isAudioTier]
  · intro t ht
    rcases List.mem_append.mp ht with hv | haud
    · obtain ⟨h, _, hf⟩ := List.mem_filterMap.mp hv
      obtain ⟨f, _, rfl⟩ := Option.map_eq_some'.mp hf
      exact formatString_ne_empty h
    · cases hb : bestAudio info.formats with
      | none => rw [hb] at haud; simp at haud
      | some b =>
        rw [hb] at haud
        have : t = Tier.audio (mkAudioTier b) := by simpa using haud
        rw [this]
        show ("bestaudio" : String) ≠ ""
        decide

/-- Witness for C1: one concrete tier of the example response, obtained
through the theorem, has a non-empty selection expression. -/
theorem C1_tier_ordering_witness :
    tierFormatId (Tier.video (mkVideoTier exInfo 1080 exV1080hi)) ≠ "" :=
  (C1_tier_ordering.1 exInfo).2.2.2 _ (by decide)

/-- Structural unfolding of `tryAlts` at a cons pattern list. -/
lemma tryAlts_cons_eq (p : List Char) (ps : List (List Char)) (cs : List Char) :
    tryAlts (p :: ps) cs
      = match (if p.isPrefixOf cs then captureRun (cs.drop p.length) else none) with
        | some g => some g
        | none => tryAlts ps cs := rfl

/-- Structural unfolding of `searchAlts` at a cons text. -/
lemma searchAlts_cons_eq (ps : List (List Char)) (c : Char) (rest : List Char) :
    searchAlts ps (c :: rest)
      = match tryAlts ps (c :: rest) with
        | some g => some g
        | none => searchAlts ps rest := rfl

/-- A successful capture is never empty. -/
lemma captureRun_ne_nil {cs g : List Char} (h : captureRun cs = some g) : g ≠ [] := by
  simp only [captureRun] at h
  by_cases hemp : (cs.takeWhile (fun c => !badChar c)).isEmpty
  · rw [if_pos hemp] at h
    cases h
  · rw [if_neg hemp] at h
    intro hg
    apply hemp
    rw [show cs.takeWhile (fun c => !badChar c) = g from Option.some.inj h, hg]
    rfl

/-- A successful alternative match is never empty. -/
lemma tryAlts_ne_nil :
    ∀ (ps : List (List Char)) (cs g : List Char), tryAlts ps cs = some g → g ≠ [] := by
  intro ps
  induction ps with
  | nil => intro cs g h; cases h
  | cons p pr ih =>
    intro cs g h
    rw [tryAlts_cons_eq] at h
    by_cases hp : p.isPrefixOf cs
    · rw [if_pos hp] at h
      cases hc : captureRun (cs.drop p.length) with
      | some g' =>
        rw [hc] at h
        exact (Option.some.inj h) ▸ captureRun_ne_nil hc
      | none =>
        rw [hc] at h
        exact ih cs g h
    · rw [if_neg hp] at h
      exact ih cs g h

/-- A successful search result is never empty. -/
lemma searchAlts_ne_nil (ps : List (List Char)) :
    ∀ (cs g : List Char), searchAlts ps cs = some g → g ≠ [] := by
  intro cs
  induction cs with
  | nil => intro g h; cases h
  | cons c rest ih =>
    intro g h
    rw [searchAlts_cons_eq] at h
    cases ht : tryAlts ps (c :: rest) with
    | some g' =>
      rw [ht] at h
      exact (Option.some.inj h) ▸ tryAlts_ne_nil ps (c :: rest) g' ht
    | none =>
      rw [ht] at h
      exact ih g h

/-- The extractor never returns an empty identifier. -/
lemma extract_ne_empty (url s : String) (h : extract_video_id url = some s) :
    s ≠ "" := by
  have hmk : ∀ g : List Char, some (String.mk g) = some s → g ≠ [] → s ≠ "" := by
    intro g hg hne hs
    apply hne
    have := Option.some.inj hg
    rw [hs] at this
    exact congrArg String.data this
  simp only [extract_video_id] at h
  cases h1 : searchAlts pat1 url.toList with
  | some g =>
    rw [h1] at h
    exact hmk g h (searchAlts_ne_nil pat1 url.toList g h1)
  | none =>
    rw [h1] at h
    cases h2 : searchAlts pat2 url.toList with
    | some g =>
      rw [h2] at h
      exact hmk g h (searchAlts_ne_nil pat2 url.toList g h2)
    | none =>
      rw [h2] at h
      cases h3 : searchAlts pat3 url.toList with
      | some g =>
        rw [h3] at h
        exact hmk g h (searchAlts_ne_nil pat3 url.toList g h3)
      | none =>
        rw [h3] at h
        cases h

/-- A run of good characters is captured whole. -/
lemma captureRun_all_good (cs : List Char) (hne : cs ≠ [])
    (hg : ∀ c ∈ cs, badChar c = false) : captureRun cs = some cs := by
  have ht : cs.takeWhile (fun c => !badChar c) = cs :=
    List.takeWhile_eq_self_iff.mpr (fun x hx => by rw [hg x hx]; rfl)
  simp only [captureRun, ht]
  rw [if_neg]
  cases cs with
  | nil => exact absurd rfl hne
  | cons a b => simp

/-- A literal is a prefix of itself followed by anything. -/
lemma isPrefixOf_append_self (p t : List Char) : p.isPrefixOf (p ++ t) = true := by
  induction p with
  | nil => cases t <;> rfl
  | cons a as ih => simp [List.isPrefixOf, List.cons_append, ih]

/-- No alternative starting with `y` matches at a non-`y` position. -/
lemma tryAlts_head_ne (c : Char) (rest : List Char) (hc : c ≠ 'y') :
    ∀ ps : List (List Char), (∀ p ∈ ps, ∃ t, p = 'y' :: t) →
      tryAlts ps (c :: rest) = none := by
  intro ps
  induction ps with
  | nil => intro _; rfl
  | cons p pr ih =>
    intro hy
    obtain ⟨t, hp⟩ := hy p (List.mem_cons_self _ _)
    subst hp
    have hpf : ('y' :: t).isPrefixOf (c :: rest) = false := by
      have he : ('y' :: t).isPrefixOf (c :: rest)
          = (('y' == c) && t.isPrefixOf rest) := rfl
      rw [he, beq_eq_false_iff_ne.mpr (Ne.symm hc), Bool.false_and]
    rw [tryAlts_cons_eq, hpf]
    simpa using ih (fun q hq => hy q (List.mem_cons_of_mem _ hq))

/-- Scanning past a run of non-`y` characters does not change the
search result when every alternative starts with `y`. -/
lemma searchAlts_skip (ps : List (List Char)) (hy : ∀ p ∈ ps, ∃ t, p = 'y' :: t) :
    ∀ (pre rest : List Char), (∀ c ∈ pre, c ≠ 'y') →
      searchAlts ps (pre ++ rest) = searchAlts ps rest := by
  intro pre
  induction pre with
  | nil => intro rest _; rfl
  | cons c t ih =>
    intro rest hc
    rw [List.cons_append, searchAlts_cons_eq,
      tryAlts_head_ne c (t ++ rest) (hc c (List.mem_cons_self _ _)) ps hy]
    exact ih rest (fun x hx => hc x (List.mem_cons_of_mem _ hx))

/-- The first alternative matches at the start of its own literal. -/
lemma tryAlts_first_match (p : List Char) (pr : List (List Char)) (idcs : List Char)
    (hcap : captureRun idcs = some idcs) :
    tryAlts (p :: pr) (p ++ idcs) = some idcs := by
  rw [tryAlts_cons_eq, isPrefixOf_append_self p idcs]
  simp only [if_true]
  rw [List.drop_left, hcap]

/-- The search succeeds immediately at the matching literal. -/
lemma searchAlts_first (a : Char) (t : List Char) (pr : List (List Char))
    (idcs : List Char) (hcap : captureRun idcs = some idcs) :
    searchAlts ((a :: t) :: pr) ((a :: t) ++ idcs) = some idcs := by
  have h := tryAlts_first_match (a :: t) pr idcs hcap
  rw [List.cons_append] at h
  rw [List.cons_append, searchAlts_cons_eq, h]

/-- The search also succeeds when the first alternative fails at the
match position but the second alternative is the literal there. -/
lemma searchAlts_second (A : List Char) (a : Char) (t : List Char)
    (pr : List (List Char)) (idcs : List Char)
    (hA : A.isPrefixOf ((a :: t) ++ idcs) = false)
    (hcap : captureRun idcs = some idcs) :
    searchAlts (A :: (a :: t) :: pr) ((a :: t) ++ idcs) = some idcs := by
  have h2 : tryAlts (A :: (a :: t) :: pr) ((a :: t) ++ idcs) = some idcs := by
    rw [tryAlts_cons_eq, hA]
    simpa using tryAlts_first_match (a :: t) pr idcs hcap
  rw [List.cons_append] at h2
  rw [List.cons_append, searchAlts_cons_eq, h2]

/-- If no alternative is a prefix at this position, the position fails. -/
lemma tryAlts_no_match (ps : List (List Char)) (cs : List Char)
    (h : ∀ p ∈ ps, p.isPrefixOf cs = false) : tryAlts ps cs = none := by
  induction ps with
  | nil => rfl
  | cons p pr ih =>
    rw [tryAlts_cons_eq, h p (List.mem_cons_self _ _)]
    simpa using ih (fun q hq => h q (List.mem_cons_of_mem _ hq))

/-- If no alternative is a prefix at any position, the search fails. -/
lemma searchAlts_none (ps : List (List Char)) :
    ∀ cs : List Char, (∀ p ∈ ps, ∀ i : Nat, p.isPrefixOf (cs.drop i) = false) →
      searchAlts ps cs = none := by
  intro cs
  induction cs with
  | nil => intro _; rfl
  | cons c rest ih =>
    intro h
    rw [searchAlts_cons_eq,
      tryAlts_no_match ps (c :: rest) (fun p hp => by simpa using h p hp 0)]
    exact ih (fun p hp i => by simpa [List.drop_succ_cons] using h p hp (i + 1))

/-- A needle that is nowhere a substring is nowhere a prefix of a
suffix. -/
lemma containsSub_no_prefix (n : List Char) :
    ∀ cs : List Char, containsSub n cs = false →
      ∀ i : Nat, n.isPrefixOf (cs.drop i) = false := by
  intro cs
  induction cs with
  | nil =>
    intro h i
    rw [List.drop_nil]
    cases n with
    | nil => cases h
    | cons a b => rfl
  | cons c t ih =>
    intro h i
    rw [containsSub] at h
    obtain ⟨h1, h2⟩ := Bool.or_eq_false_iff.mp h
    cases i with
    | zero => simpa using h1
    | succ j => simpa [List.drop_succ_cons] using ih h2 j

/-- A pattern containing a bad character is nowhere a prefix of a
suffix of a good-character identifier. -/
lemma bad_no_prefix (p cs : List Char) (c : Char) (hc : c ∈ p)
    (hbad : badChar c = true) (hg : ∀ x ∈ cs, badChar x = false) :
    ∀ i : Nat, p.isPrefixOf (cs.drop i) = false := by
  intro i
  cases hv : p.isPrefixOf (cs.drop i) with
  | false => rfl
  | true =>
    have hpre : p <+: cs.drop i := List.isPrefixOf_iff_prefix.mp hv
    have hmem : c ∈ cs := List.drop_subset i cs (hpre.subset hc)
    rw [hg c hmem] at hbad
    cases hbad

/-- C8 counterexample: for the identifier `xyoutu.be/z` (non-empty,
free of the excluded characters) the watch URL and the embed URL do not
yield the same extracted identifier, because pattern 1 fires inside the
embed URL's identifier. -/
theorem C8_url_shapes_counterexample :
    extract_video_id "https://www.youtube.com/watch?v=xyoutu.be/z"
        = some "xyoutu.be/z" ∧
    extract_video_id "https://www.youtube.com/embed/xyoutu.be/z" = some "z" ∧
    ("xyoutu.be/z" : String) ≠ "z" :=
  ⟨by decide, by decide, by decide⟩

/-- C8 (amended): the extractor is a pure function trying the three
patterns in order and returning the first capture or `none`; every
returned identifier is non-empty; and the watch, short and embed URL
shapes encoding the same identifier all yield that identifier, provided
the identifier is non-empty, contains none of `& \n ? #`, and does not
itself contain `youtu.be/` as a substring. -/
theorem C8_url_shapes_amended :
    (∀ url s : String, extract_video_id url = some s → s ≠ "") ∧
    ∀ id : String,
      id.toList ≠ [] →
      (∀ c ∈ id.toList, badChar c = false) →
      containsSub "youtu.be/".toList id.toList = false →
      extract_video_id ("https://www.youtube.com/watch?v=" ++ id) = some id ∧
      extract_video_id ("https://youtu.be/" ++ id) = some id ∧
      extract_video_id ("https://www.youtube.com/embed/" ++ id) = some id := by
  refine ⟨extract_ne_empty, ?_⟩
  intro id hne hgood hsub
  have hcap : captureRun id.toList = some id.toList :=
    captureRun_all_good id.toList hne hgood
  have hy1 : ∀ p ∈ pat1, ∃ t, p = 'y' :: t := by
    intro p hp
    simp only [pat1, List.mem_cons, List.not_mem_nil, or_false] at hp
    rcases hp with rfl | rfl
    · exact ⟨"outube.com/watch?v=".toList, rfl⟩
    · exact ⟨"outu.be/".toList, rfl⟩
  have hy2 : ∀ p ∈ pat2, ∃ t, p = 'y' :: t := by
    intro p hp
    simp only [pat2, List.mem_cons, List.not_mem_nil, or_false] at hp
    rcases hp with rfl
    exact ⟨"outube.com/embed/".toList, rfl⟩
  refine ⟨?_, ?_, ?_⟩
  · -- watch URL
    have hlist : ("https://www.youtube.com/watch?v=" ++ id).toList
        = "https://www.".toList ++ ("youtube.com/watch?v=".toList ++ id.toList) := by
      show ("https://www.youtube.com/watch?v=" ++ id).data = _
      rw [String.data_append,
        show ("https://www.youtube.com/watch?v=" : String).data
            = ("https://www." : String).data ++ ("youtube.com/watch?v=" : String).data
          from by decide,
        List.append_assoc]
      rfl
    have hs1 : searchAlts pat1 ("https://www.youtube.com/watch?v=" ++ id).toList
        = some id.toList := by
      rw [hlist, searchAlts_skip pat1 hy1 "https://www.".toList _ (by decide)]
      exact searchAlts_first 'y' "outube.com/watch?v=".toList
        ["youtu.be/".toList] id.toList hcap
    unfold extract_video_id
    rw [hs1]
    rfl
  · -- short URL
    have hlist : ("https://youtu.be/" ++ id).toList
        = "https://".toList ++ ("youtu.be/".toList ++ id.toList) := by
      show ("https://youtu.be/" ++ id).data = _
      rw [String.data_append,
        show ("https://youtu.be/" : String).data
            = ("https://" : String).data ++ ("youtu.be/" : String).data
          from by decide,
        List.append_assoc]
      rfl
    have hs1 : searchAlts pat1 ("https://youtu.be/" ++ id).toList
        = some id.toList := by
      rw [hlist, searchAlts_skip pat1 hy1 "https://".toList _ (by decide)]
      exact searchAlts_second "youtube.com/watch?v=".toList 'y' "outu.be/".toList
        [] id.toList rfl hcap
    unfold extract_video_id
    rw [hs1]
    rfl
  · -- embed URL
    have hlist : ("https://www.youtube.com/embed/" ++ id).toList
        = "https://www.".toList ++ ("youtube.com/embed/".toList ++ id.toList) := by
      show ("https://www.youtube.com/embed/" ++ id).data = _
      rw [String.data_append,
        show ("https://www.youtube.com/embed/" : String).data
            = ("https://www." : String).data ++ ("youtube.com/embed/" : String).data
          from by decide,
        List.append_assoc]
      rfl
    have hnone1 : searchAlts pat1 ("https://www.youtube.com/embed/" ++ id).toList
        = none := by
      rw [hlist, searchAlts_skip pat1 hy1 "https://www.".toList _ (by decide)]
      have hstep : tryAlts pat1 ('y' :: ("outube.com/embed/".toList ++ id.toList))
          = none := by
        apply tryAlts_no_match
        intro p hp
        simp only [pat1, List.mem_cons, List.not_mem_nil, or_false] at hp
        rcases hp with rfl | rfl
        · rfl
        · rfl
      rw [show "youtube.com/embed/".toList ++ id.toList
            = 'y' :: ("outube.com/embed/".toList ++ id.toList) from rfl,
        searchAlts_cons_eq, hstep]
      show searchAlts pat1 ("outube.com/embed/".toList ++ id.toList) = none
      rw [searchAlts_skip pat1 hy1 "outube.com/embed/".toList _ (by decide)]
      apply searchAlts_none
      intro p hp i
      simp only [pat1, List.mem_cons, List.not_mem_nil, or_false] at hp
      rcases hp with rfl | rfl
      · exact bad_no_prefix _ _ '?' (by decide) (by decide) hgood i
      · exact containsSub_no_prefix _ _ hsub i
    have hs2 : searchAlts pat2 ("https://www.youtube.com/embed/" ++ id).toList
        = some id.toList := by
      rw [hlist, searchAlts_skip pat2 hy2 "https://www.".toList _ (by decide)]
      exact searchAlts_first 'y' "outube.com/embed/".toList [] id.toList hcap
    unfold extract_video_id
    rw [hnone1, hs2]
    rfl

/-- Witness for C8 (amended) at a concrete identifier: all three URL
shapes yield `dQw4w9WgXcQ`. -/
theorem C8_url_shapes_amended_witness :
    extract_video_id ("https://www.youtube.com/watch?v=" ++ "dQw4w9WgXcQ")
        = some "dQw4w9WgXcQ" ∧
    extract_video_id ("https://youtu.be/" ++ "dQw4w9WgXcQ") = some "dQw4w9WgXcQ" ∧
    extract_video_id ("https://www.youtube.com/embed/" ++ "dQw4w9WgXcQ")
        = some "dQw4w9WgXcQ" := by
  have h := C8_url_shapes_amended.2 "dQw4w9WgXcQ" (by decide) (by decide) (by decide)
  exact ⟨h.1, h.2.1, h.2.2⟩

/-- C3: the audio-only pipeline (format `bestaudio/best` plus an
`FFmpegExtractAudio` step re-encoding to mp3 at preferred quality 192)
is configured if and only if the quality string contains `audio`
case-insensitively or the `format_id` equals the sentinel `bestaudio`;
in particular quality `audio only` always selects it. -/
theorem C3_audio_pipeline :
    (∀ (format_id : Option String) (quality : String),
      downloadOpts format_id quality = audioOpts ↔
        (containsSub "audio".toList (lowerStr quality) = true ∨
          format_id = some "bestaudio")) ∧
    ∀ format_id : Option String, downloadOpts format_id "audio only" = audioOpts := by
  have hcond : ∀ (fid : Option String) (q : String),
      wantsAudio fid q = true ↔
        (containsSub "audio".toList (lowerStr q) = true ∨ fid = some "bestaudio") := by
    intro fid q
    simp [wantsAudio]
  constructor
  · intro fid q
    constructor
    · intro h
      by_contra hc
      have hw : wantsAudio fid q = false := by
        rcases hwv : wantsAudio fid q with _ | _
        · rfl
        · exact absurd ((hcond fid q).mp hwv) hc
      rw [downloadOpts, hw] at h
      simp [audioOpts] at h
    · intro h
      rw [downloadOpts, if_pos ((hcond fid q).mpr h)]
  · intro fid
    rw [downloadOpts,
      if_pos ((hcond fid "audio only").mpr (Or.inl (by decide)))]

/-- Witness for C3 at a concrete request: quality `Audio Only` with an
unrelated `format_id` still selects the audio pipeline. -/
theorem C3_audio_pipeline_witness :
    downloadOpts (some "bestvideo[height=1080]+bestaudio") "Audio Only" = audioOpts :=
  (C3_audio_pipeline.1 _ _).mpr (Or.inl (by decide))

/-- C4: a request that does not select the audio pipeline passes the
caller's `format_id` through verbatim as the `format` option, the
delegate substitutes its generic best-video+audio expression when none
was supplied, and the video pipeline forces `merge_output_format mp4`
plus an `FFmpegVideoConvertor` step to mp4. -/
theorem C4_video_pipeline :
    ∀ (format_id : Option String) (quality : String),
      wantsAudio format_id quality = false →
        (downloadOpts format_id quality).format = format_id ∧
        (∀ s, format_id = some s →
          effectiveFormat (downloadOpts format_id quality) = s) ∧
        (format_id = none →
          effectiveFormat (downloadOpts format_id quality) = delegateDefaultFormat) ∧
        (downloadOpts format_id quality).merge_output_format = some "mp4" ∧
        (downloadOpts format_id quality).postprocessors = [.videoConvertor "mp4"] := by
  intro fid q hw
  rw [downloadOpts, if_neg (by simp [hw])]
  refine ⟨rfl, ?_, ?_, rfl, rfl⟩
  · intro s hs
    subst hs
    rfl
  · intro hs
    subst hs
    rfl

/-- Witness for C4 at concrete requests: an explicit expression is
passed through verbatim, and an absent one falls back to the generic
expression. -/
theorem C4_video_pipeline_witness :
    (downloadOpts (some "bestvideo[height=720]+bestaudio") "720p").format
        = some "bestvideo[height=720]+bestaudio" ∧
      effectiveFormat (downloadOpts none "720p") = delegateDefaultFormat :=
  ⟨(C4_video_pipeline (some "bestvideo[height=720]+bestaudio") "720p" (by decide)).1,
   (C4_video_pipeline none "720p" (by decide)).2.2.1 rfl⟩

/-- C6: a selected video variant with no reported or approximate
filesize but truthy bitrate and duration gets the byte size
`int(tbr * duration * 1024 / 8)`. -/
theorem C6_size_estimate :
    ∀ (info : VideoInfo) (h : Nat) (f : RawVariant),
      pyOr f.filesize (f.filesize_approx.getD 0) = 0 →
      tbrD f ≠ 0 →
      info.duration.getD 0 ≠ 0 →
      (mkVideoTier info h f).filesize = tbrD f * info.duration.getD 0 * 1024 / 8 := by
  intro info h f h0 ht hd
  show estFilesize info f = _
  rw [estFilesize, if_pos ⟨h0, ht, hd⟩]

/-- Witness for C6: bitrate 5000 kbps over 120 s with no reported size
yields exactly 5000·120·1024/8 = 76800000 bytes. -/
theorem C6_size_estimate_witness :
    (mkVideoTier infoC6 1080 fC6).filesize = 76800000 :=
  (C6_size_estimate infoC6 1080 fC6 (by decide) (by decide) (by decide)).trans (by decide)

/-- C10: every video tier reports ext `mp4` and acodec `aac`
unconditionally, fps 30 when the chosen variant reports no frame rate
(and the variant's own frame rate otherwise), and vcodec taken from the
variant with default `h264`. -/
theorem C10_constant_tier_fields :
    ∀ (info : VideoInfo) (h : Nat) (f : RawVariant),
      (mkVideoTier info h f).ext = "mp4" ∧
      (mkVideoTier info h f).acodec = "aac" ∧
      (f.fps = none → (mkVideoTier info h f).fps = 30) ∧
      (∀ n, f.fps = some n → (mkVideoTier info h f).fps = n) ∧
      (mkVideoTier info h f).vcodec = f.vcodec.getD "h264" := by
  intro info h f
  refine ⟨rfl, rfl, ?_, ?_, rfl⟩
  · intro hn
    show f.fps.getD 30 = 30
    rw [hn]
    rfl
  · intro n hn
    show f.fps.getD 30 = n
    rw [hn]
    rfl

/-- Witness for C10 at a concrete variant without a frame rate: the
emitted fps is 30. -/
theorem C10_constant_tier_fields_witness :
    (mkVideoTier infoC6 1080 fC6).fps = 30 :=
  (C10_constant_tier_fields infoC6 1080 fC6).2.2.1 rfl

/-- C9 counterexample: the two `format_bytes` helpers disagree already
at 1 byte (`1.00 B` with two decimals vs `1.0 B` with one), so the
helpers are not identical on every input. -/
theorem C9_helpers_counterexample :
    format_bytes 1 = "1.00 B" ∧ ts_format_bytes 1 = "1.0 B" ∧
      format_bytes 1 ≠ ts_format_bytes 1 :=
  ⟨by decide, by decide, by decide⟩

/-- C9 (amended): `extract_video_id` and `format_duration` agree on
every input across the two variants, while the two `format_bytes` loops
both instantiate the same division-by-1024 loop and differ only in the
fixed-point precision parameter (two decimals in `app.py`, one in
`ts.py`), agreeing on the `Unknown` case. -/
theorem C9_helpers_amended :
    (∀ url : String, extract_video_id url = ts_extract_video_id url) ∧
    (∀ s : Nat, format_duration s = ts_format_duration s) ∧
    (∀ (num shift : Nat) (us : List String), appFbGo num shift us = fbGo 2 num shift us) ∧
    (∀ (num shift : Nat) (us : List String), tsFbGo num shift us = fbGo 1 num shift us) ∧
    format_bytes 0 = "Unknown" ∧ ts_format_bytes 0 = "Unknown" := by
  refine ⟨fun url => rfl, fun s => rfl, ?_, ?_, by decide, by decide⟩
  · intro num shift us
    induction us generalizing num shift with
    | nil => rfl
    | cons u t ih =>
      rw [appFbGo, fbGo]
      by_cases hlt : num < 1024 * 2 ^ shift
      · rw [if_pos hlt, if_pos hlt]
      · rw [if_neg hlt, if_neg hlt, ih]
  · intro num shift us
    induction us generalizing num shift with
    | nil => rfl
    | cons u t ih =>
      rw [tsFbGo, fbGo]
      by_cases hlt : num < 1024 * 2 ^ shift
      · rw [if_pos hlt, if_pos hlt]
      · rw [if_neg hlt, if_neg hlt, ih]

end YtDl
